import Mathlib

/-!
# Verification of the `app` error-context library

Shallow embedding of `meta_error.go` and `func_name.go` from the `app`
repository. Go strings are modelled as `List Char` (all inputs relevant to the
claims are ASCII, so byte indices and rune indices coincide). Go functions that
can panic are modelled with an `Option` result, where `none` marks exactly the
inputs on which the Go code panics (index out of range, nil-interface method
call). The runtime-introspection primitives (`runtime.Caller`,
`runtime.Callers`, `runtime.CallersFrames`, `runtime.FuncForPC`) are modelled
as explicit oracle parameters.
-/

namespace App

/-- Convert a Lean string literal to the `List Char` representation used for Go
strings throughout this development. -/
def gs (s : String) : List Char := s.toList

/-! ## Go `strings` package helpers (from the Go standard library) -/

/-- Go `strings.LastIndex(s, pat)`: index of the last occurrence of `pat` in
`s`, or `-1` if absent.  `LastIndex(s, "") = len(s)`. -/
def lastIndexGo (s pat : List Char) : Int :=
  match (((List.range (s.length + 1)).filter
      (fun i => pat.isPrefixOf (s.drop i)))).getLast? with
  | some i => (i : Int)
  | none => -1

/-- Go `strings.Index(s, pat)`: index of the first occurrence of `pat` in `s`,
or `-1` if absent. -/
def indexGo (s pat : List Char) : Int :=
  match (((List.range (s.length + 1)).filter
      (fun i => pat.isPrefixOf (s.drop i)))).head? with
  | some i => (i : Int)
  | none => -1

/-- Go `strings.HasSuffix`. -/
def hasSuffixGo (s pat : List Char) : Bool := pat.isSuffixOf s

/-- Go `strings.TrimSuffix`. -/
def trimSuffixGo (s pat : List Char) : List Char :=
  if pat.isSuffixOf s then s.take (s.length - pat.length) else s

/-- Go `strings.Split(s, sep)` for a single-character separator (the only form
used by the repository: splitting on `"."`). -/
def splitCharGo (c : Char) : List Char → List (List Char)
  | [] => [[]]
  | x :: t =>
    match splitCharGo c t with
    | [] => [[]]
    | r :: rs => if x = c then [] :: r :: rs else (x :: r) :: rs

/-- Go slice expression `s[a:b]` (for in-range `a ≤ b`). -/
def sliceGo (s : List Char) (a b : Nat) : List Char := (s.take b).drop a

/-! ## `func_name.go` -/

/-- Result record of `parseFuncName` (its seven named results). -/
structure FuncNameResult where
  pkgPath : List Char
  qualifier : List Char
  recvPtr : Bool
  typeGeneric : List Char
  funcGeneric : List Char
  funcName : List Char
  notice : List Char
deriving DecidableEq, Repr

/-- `func_name.go`: `isLetter`. -/
def isLetterGo (c : Char) : Bool :=
  decide (('a' ≤ c ∧ c ≤ 'z') ∨ ('A' ≤ c ∧ c ≤ 'Z'))

/-- `func_name.go`: `isLetterDigitOrHyphen`. -/
def isLetterDigitOrHyphenGo (c : Char) : Bool :=
  isLetterGo c || decide ('0' ≤ c ∧ c ≤ '9') || decide (c = '-')

/-- `func_name.go`: `isValidDomain`. -/
def isValidDomainGo (domain : List Char) : Bool :=
  let parts := splitCharGo '.' domain
  if parts.length < 2 then false
  else parts.all (fun part =>
    !part.isEmpty && part.all isLetterDigitOrHyphenGo &&
      !(part.headD ' ' = '-') && !(part.getLastD ' ' = '-'))

/-- `func_name.go`: `isGoPackageURLPattern`. -/
def isGoPackageURLPattern (s : List Char) : Bool :=
  if s.length < 4 then false
  else
    let slashPos := indexGo s (gs "/")
    if slashPos < 0 then false
    else isValidDomainGo (s.take slashPos.toNat)

/-- `func_name.go`: `isAnonymousFuncName`. -/
def isAnonymousFuncName (funcName : List Char) : Bool :=
  if 0 ≤ indexGo funcName (gs ".func") then true
  else if !((gs "func").isPrefixOf funcName) then false
  else
    let numberPart := funcName.drop 4
    if numberPart.isEmpty then false
    else numberPart.all (fun ch => decide ('0' ≤ ch ∧ ch ≤ '9'))

/-- `parseFuncName`, final step: the pointer-marker handling on the receiver
string (`strings.HasPrefix(recvPtrStr, "*")`). -/
def parseFNPtr (pkgPath recvPtrStr notice typeGeneric funcGeneric funcName : List Char) :
    Option FuncNameResult :=
  if (gs "*").isPrefixOf recvPtrStr then
    some { pkgPath := pkgPath, qualifier := recvPtrStr.drop 1, recvPtr := true,
           typeGeneric := typeGeneric, funcGeneric := funcGeneric,
           funcName := funcName, notice := notice }
  else
    some { pkgPath := pkgPath, qualifier := recvPtrStr, recvPtr := false,
           typeGeneric := typeGeneric, funcGeneric := funcGeneric,
           funcName := funcName, notice := notice }

/-- `parseFuncName`, step 4: the `pkgPath`/receiver split for the
non-parenthesized case (including the embedded calling-function heuristic with
`isGoPackageURLPattern`), then the pointer marker. -/
def parseFN4 (sepIdx : Int) (funcGeneric funcName notice : List Char) (hasParen : Bool)
    (pkgPath0 typeGeneric pkgRecv : List Char) : Option FuncNameResult :=
  if !hasParen then
    let dotIdx := lastIndexGo pkgRecv (gs ".")
    if dotIdx < 0 then
      some { pkgPath := pkgRecv, qualifier := [], recvPtr := false,
             typeGeneric := typeGeneric, funcGeneric := funcGeneric,
             funcName := funcName, notice := notice }
    else
      let sepIdx2 :=
        if dotIdx < sepIdx ∧ 0 ≤ indexGo typeGeneric (gs "/") then
          lastIndexGo pkgRecv (gs "/")
        else sepIdx
      if dotIdx < sepIdx ∧ dotIdx < sepIdx2 then
        -- no receiver: the whole text is the package path
        some { pkgPath := pkgRecv, qualifier := [], recvPtr := false,
               typeGeneric := typeGeneric, funcGeneric := funcGeneric,
               funcName := funcName, notice := notice }
      else
        let pkgPath1 := pkgRecv.take dotIdx.toNat
        let recvPtrStr1 := pkgRecv.drop (dotIdx.toNat + 1)
        let step :=
          if 0 ≤ indexGo pkgPath1 (gs ".") then
            let parts := splitCharGo '.' pkgPath1
            if parts.length = 2 then
              if !isGoPackageURLPattern pkgPath1 then
                let callingFunc := parts.getD 1 []
                (trimSuffixGo pkgPath1 ('.' :: callingFunc), callingFunc,
                 notice ++ gs "Notes: Calling function on package: " ++ callingFunc ++ gs "\n")
              else (pkgPath1, recvPtrStr1, notice)
            else if parts.length = 1 then (parts.getD 0 [], recvPtrStr1, notice)
            else (pkgPath1, recvPtrStr1, notice)
          else (pkgPath1, recvPtrStr1, notice)
    parseFNPtr step.1 step.2.1 step.2.2 typeGeneric funcGeneric funcName
  else
    parseFNPtr pkgPath0 pkgRecv notice typeGeneric funcGeneric funcName

/-- `parseFuncName`, step 3: receiver generic-argument stripping
(`strings.HasSuffix(pkgRecvGeneric, "]")`). -/
def parseFN3 (sepIdx : Int) (funcGeneric funcName notice : List Char) (hasParen : Bool)
    (pkgPath0 pkgRecvGeneric : List Char) : Option FuncNameResult :=
  if hasSuffixGo pkgRecvGeneric (gs "]") then
    let leftIdx := lastIndexGo pkgRecvGeneric (gs "[")
    if leftIdx < 0 then
      -- invalid: abort with the values gathered so far
      some { pkgPath := pkgPath0, qualifier := [], recvPtr := false, typeGeneric := [],
             funcGeneric := funcGeneric, funcName := funcName, notice := notice }
    else
      parseFN4 sepIdx funcGeneric funcName notice hasParen pkgPath0
        (sliceGo pkgRecvGeneric (leftIdx.toNat + 1) (pkgRecvGeneric.length - 1))
        (pkgRecvGeneric.take leftIdx.toNat)
  else
    parseFN4 sepIdx funcGeneric funcName notice hasParen pkgPath0 [] pkgRecvGeneric

/-- `parseFuncName`, step 2: the parenthesized-receiver case.  Note that when
the only `(` of the receiver text sits at index `0`, the Go code evaluates
`pkgRecvGenericParen[leftIdx-1]`, an index-out-of-range panic: modelled as
`none`. -/
def parseFN2 (sepIdx : Int) (funcGeneric funcName notice0 pkgRecvGenericParen : List Char) :
    Option FuncNameResult :=
  if hasSuffixGo pkgRecvGenericParen (gs ")") then
    let leftIdx := lastIndexGo pkgRecvGenericParen (gs "(")
    if leftIdx < 0 then
      some { pkgPath := [], qualifier := [], recvPtr := false, typeGeneric := [],
             funcGeneric := funcGeneric, funcName := funcName, notice := notice0 }
    else
      let pkgRecvGeneric :=
        sliceGo pkgRecvGenericParen (leftIdx.toNat + 1) (pkgRecvGenericParen.length - 1)
      if leftIdx = 0 then none   -- Go panic: pkgRecvGenericParen[-1]
      else if !(pkgRecvGenericParen.getD (leftIdx.toNat - 1) ' ' = '.') then
        some { pkgPath := [], qualifier := [], recvPtr := false, typeGeneric := [],
               funcGeneric := funcGeneric, funcName := funcName, notice := notice0 }
      else
        let pkgPath0 := pkgRecvGenericParen.take (leftIdx.toNat - 1)
        let step :=
          if 0 ≤ indexGo pkgPath0 (gs "/") then
            let lastIdx := lastIndexGo pkgPath0 (gs "/")
            let lastPkgPath := pkgPath0.drop (lastIdx.toNat + 1)
            if 0 ≤ indexGo lastPkgPath (gs ".") then
              let parts := splitCharGo '.' pkgPath0
              if parts.length = 2 then
                let callingFunc := parts.getD 1 []
                (trimSuffixGo pkgPath0 ('.' :: callingFunc),
                 notice0 ++ gs ",qualifier (struct or pkg level func) " ++ callingFunc ++ gs "\n")
              else if parts.length = 1 then (parts.getD 0 [], notice0)
              else (pkgPath0, notice0)
            else (pkgPath0, notice0)
          else (pkgPath0, notice0)
        parseFN3 sepIdx funcGeneric funcName step.2 true step.1 pkgRecvGeneric
  else
    parseFN3 sepIdx funcGeneric funcName notice0 false [] pkgRecvGenericParen

/-- `parseFuncName`, step 1: function-name extraction and anonymous-closure
(`.funcN`) recovery. -/
def parseFN1 (sepIdx : Int) (funcGeneric p : List Char) : Option FuncNameResult :=
  let funcNameDot := lastIndexGo p (gs ".")
  if funcNameDot < 0 then
    some { pkgPath := [], qualifier := [], recvPtr := false, typeGeneric := [],
           funcGeneric := funcGeneric, funcName := p, notice := [] }
  else
    let funcName0 := p.drop (funcNameDot.toNat + 1)
    if isAnonymousFuncName funcName0 then
      let funcNameDot2 := lastIndexGo (p.take funcNameDot.toNat) (gs ".")
      if funcNameDot2 < 0 then
        some { pkgPath := [], qualifier := [], recvPtr := false, typeGeneric := [],
               funcGeneric := funcGeneric, funcName := p, notice := [] }
      else
        let fn1 := p.drop (funcNameDot2.toNat + 1)
        let idx := lastIndexGo fn1 (gs ".func")
        let fn2 := if idx = -1 then fn1 else fn1.take idx.toNat
        parseFN2 sepIdx funcGeneric fn2 (gs "anonymous function") (p.take funcNameDot2.toNat)
    else
      parseFN2 sepIdx funcGeneric funcName0 [] (p.take funcNameDot.toNat)

/-- `func_name.go`: `parseFuncName`.  Returns `none` exactly when the Go code
panics (see `parseFN2`); otherwise `some` of the seven named results. -/
def parseFuncName (fullName : List Char) : Option FuncNameResult :=
  let sepIdx : Int := lastIndexGo fullName (gs "/")
  if hasSuffixGo fullName (gs "]") then
    let leftIdx := lastIndexGo fullName (gs "[")
    if leftIdx < 0 then
      some { pkgPath := [], qualifier := [], recvPtr := false, typeGeneric := [],
             funcGeneric := [], funcName := [], notice := [] }
    else
      parseFN1 sepIdx (sliceGo fullName (leftIdx.toNat + 1) (fullName.length - 1))
        (fullName.take leftIdx.toNat)
  else
    parseFN1 sepIdx [] fullName

example : parseFuncName (gs "fmt.Printf") =
    some ⟨gs "fmt", [], false, [], [], gs "Printf", []⟩ := by decide

example : parseFuncName (gs "os.File.Read") =
    some ⟨gs "os", gs "File", false, [], [], gs "Read", []⟩ := by decide

example : parseFuncName (gs "os.(*File).Read") =
    some ⟨gs "os", gs "File", true, [], [], gs "Read", []⟩ := by decide

/-! ## Go `unicode` / `strconv` / `path/filepath` helpers -/

/-- Go `unicode.IsSpace`: the Unicode `White_Space` property. -/
def goIsSpace (c : Char) : Bool :=
  decide (c.val = 9 ∨ c.val = 10 ∨ c.val = 11 ∨ c.val = 12 ∨ c.val = 13 ∨ c.val = 32 ∨
    c.val = 0x85 ∨ c.val = 0xA0 ∨ c.val = 0x1680 ∨
    (0x2000 ≤ c.val ∧ c.val ≤ 0x200A) ∨ c.val = 0x2028 ∨ c.val = 0x2029 ∨
    c.val = 0x202F ∨ c.val = 0x205F ∨ c.val = 0x3000)

/-- Go `strings.TrimSpace`. -/
def goTrimSpace (s : List Char) : List Char :=
  ((s.dropWhile goIsSpace).reverse.dropWhile goIsSpace).reverse

/-- Little-endian decimal digits of `n`.  The fuel argument (instantiated
with `n` itself, an upper bound on the number of digits) makes the recursion
structural; `natDigitsAux_eq_digits` below shows it computes
`Nat.digits 10`. -/
def natDigitsAux : Nat → Nat → List Nat
  | 0, _ => []
  | _ + 1, 0 => []
  | fuel + 1, n => n % 10 :: natDigitsAux fuel (n / 10)

/-- Go `strconv.Itoa` for a natural number (minimal decimal digits). -/
def natToDecimal (n : Nat) : List Char :=
  if n = 0 then ['0'] else ((natDigitsAux n n).map Nat.digitChar).reverse

/-- Go `strconv.Itoa` (`int` modelled as unbounded `Int`; a Go `int` always
fits in 64 bits). -/
def goItoa (n : Int) : List Char :=
  if n < 0 then '-' :: natToDecimal (-n).toNat else natToDecimal n.toNat

/-- Value of a decimal digit character. -/
def decDigitVal (c : Char) : Option Nat :=
  if '0' ≤ c ∧ c ≤ '9' then some (c.toNat - '0'.toNat) else none

def decimalValAux : List Char → Nat → Option Nat
  | [], acc => some acc
  | c :: t, acc =>
    match decDigitVal c with
    | none => none
    | some d => decimalValAux t (acc * 10 + d)

/-- Unsigned decimal parse: `none` on an empty string or a non-digit. -/
def decimalVal (s : List Char) : Option Nat :=
  if s.isEmpty then none else decimalValAux s 0

def int64Min : Int := -(2 ^ 63)
def int64Max : Int := 2 ^ 63 - 1

/-- Go `strconv.Atoi`: optional sign, one or more decimal digits, nothing
else; out-of-`int64`-range values give an error (`none`). -/
def goAtoi (s : List Char) : Option Int :=
  match s with
  | [] => none
  | c :: t =>
    if c = '-' then
      (decimalVal t).bind (fun n =>
        if int64Min ≤ -(n : Int) then some (-(n : Int)) else none)
    else if c = '+' then
      (decimalVal t).bind (fun n =>
        if (n : Int) ≤ int64Max then some (n : Int) else none)
    else
      (decimalVal (c :: t)).bind (fun n =>
        if (n : Int) ≤ int64Max then some (n : Int) else none)

/-- Go `path/filepath.Base` (unix separator `/`): strip trailing separators,
take the text after the last remaining separator; `"."` for the empty path and
`"/"` for a path of only separators. -/
def goFilepathBase (path : List Char) : List Char :=
  if path.isEmpty then ['.']
  else
    let p1 := (path.reverse.dropWhile (fun c => c = '/')).reverse
    let p2 := (p1.reverse.takeWhile (fun c => !(c = '/'))).reverse
    if p2.isEmpty then ['/'] else p2

/-! ## Go `encoding/csv` with `Comma = '|'` (writer and reader)

The writer is `csv.Writer.Write` + `Flush` for a single record with
`UseCRLF = false`.  The reader is `csv.Reader.Read` with `LazyQuotes = false`,
`TrimLeadingSpace = false`, `Comment = 0`: its per-line processing
(`readLine`) normalizes every `\r\n` to `\n` and drops a trailing `\r` before
EOF, skips blank lines before the record, and then lexes quoted/unquoted
fields.  After the line normalization the line-by-line lexer is transcribed
here as a character-level state machine over the normalized stream: `\n` is
exactly a line boundary, so "end of line" tests become tests on the next
character. -/

/-- `csv.Writer.fieldNeedsQuotes` for `Comma = '|'`. -/
def fieldNeedsQuotes (f : List Char) : Bool :=
  if f.isEmpty then false
  else if f = gs "\\." then true
  else if f.any (fun c => decide (c = '|' ∨ c = '"' ∨ c = '\r' ∨ c = '\n')) then true
  else goIsSpace (f.headD ' ')

/-- The writer's quoted-field body: each `"` doubled (with `UseCRLF = false`,
`\r` and `\n` pass through unchanged). -/
def escapeQuotes : List Char → List Char
  | [] => []
  | c :: t => if c = '"' then '"' :: '"' :: escapeQuotes t else c :: escapeQuotes t

/-- One encoded field of `csv.Writer.Write`. -/
def encodeField (f : List Char) : List Char :=
  if fieldNeedsQuotes f then '"' :: (escapeQuotes f ++ ['"']) else f

/-- `csv.Writer.Write`'s field loop: fields joined by the `|` comma. -/
def goCSVWriteFields : List (List Char) → List Char
  | [] => []
  | [f] => encodeField f
  | f :: g :: t => encodeField f ++ '|' :: goCSVWriteFields (g :: t)

/-- A full written record: the joined fields plus the `\n` terminator. -/
def goCSVWriteRecord (fs : List (List Char)) : List Char :=
  goCSVWriteFields fs ++ ['\n']

/-- `csv.Reader.readLine`'s normalization, applied to the whole input: every
`\r\n` becomes `\n`, and a trailing `\r` immediately before EOF is dropped. -/
def normalizeNL : List Char → List Char
  | [] => []
  | [c] => if c = '\r' then [] else [c]
  | a :: b :: t =>
    if a = '\r' ∧ b = '\n' then '\n' :: normalizeNL t
    else a :: normalizeNL (b :: t)

/-- Lexer state of `csv.Reader.readRecord`'s field loop. -/
inductive CSVMode where
  | fieldStart
  | unquoted
  | quoted
  | afterQuote
deriving DecidableEq, Repr

/-- The field loop of `csv.Reader.readRecord` over the normalized stream.
`fld` is the field being accumulated, `rec` the fields already read; `none`
models the `ErrBareQuote` / `ErrQuote` parse errors. -/
def goCSVScan : List Char → CSVMode → List Char → List (List Char) →
    Option (List (List Char))
  | [], .fieldStart, _fld, r => some (r ++ [[]])
  | [], .unquoted, fld, r => some (r ++ [fld])
  | [], .quoted, _fld, _r => none
  | [], .afterQuote, fld, r => some (r ++ [fld])
  | c :: t, .fieldStart, _fld, r =>
    if c = '"' then goCSVScan t .quoted [] r
    else if c = '|' then goCSVScan t .fieldStart [] (r ++ [[]])
    else if c = '\n' then some (r ++ [[]])
    else goCSVScan t .unquoted [c] r
  | c :: t, .unquoted, fld, r =>
    if c = '"' then none
    else if c = '|' then goCSVScan t .fieldStart [] (r ++ [fld])
    else if c = '\n' then some (r ++ [fld])
    else goCSVScan t .unquoted (fld ++ [c]) r
  | c :: t, .quoted, fld, r =>
    if c = '"' then goCSVScan t .afterQuote fld r
    else goCSVScan t .quoted (fld ++ [c]) r
  | c :: t, .afterQuote, fld, r =>
    if c = '"' then goCSVScan t .quoted (fld ++ ['"']) r
    else if c = '|' then goCSVScan t .fieldStart [] (r ++ [fld])
    else if c = '\n' then some (r ++ [fld])
    else none

/-- `csv.Reader.Read` without the `FieldsPerRecord` count check: normalize,
skip blank lines, fail (`io.EOF`) on exhausted input, then lex the first
record. -/
def goCSVReadRaw (s : List Char) : Option (List (List Char)) :=
  if ((normalizeNL s).dropWhile (fun c => c = '\n')).isEmpty then none
  else goCSVScan ((normalizeNL s).dropWhile (fun c => c = '\n')) .fieldStart [] []

/-- `csv.Reader.Read` as configured by `MetaErrorFromCSV`
(`FieldsPerRecord = 5`): a parsed record with a field count other than 5 is an
`ErrFieldCount` error. -/
def goCSVRead5 (s : List Char) : Option (List (List Char)) :=
  match goCSVReadRaw s with
  | none => none
  | some r => if r.length = 5 then some r else none

/-! ## `meta_error.go`: the data model -/

mutual
/-- A Go `*MetaError` value.  `stackTraceString` is the rendered-stack field
written by `StackTrace`; `asCSV` is the compact-mode flag. -/
inductive MetaError where
  | mk (Err : Option GoError) (File : List Char) (Line : Int) (Func : List Char)
      (Package : List Char) (stackTrace : List Nat) (stackTraceString : List Char)
      (asCSV : Bool)

/-- A Go `error` interface value reachable in this library: a plain message
error (`errors.New` / `fmt.Errorf`) or a `*MetaError`.  A nil interface is
`Option.none` at use sites. -/
inductive GoError where
  | base (msg : List Char)
  | meta (m : MetaError)
end

def MetaError.Err : MetaError → Option GoError
  | .mk e _ _ _ _ _ _ _ => e

def MetaError.File : MetaError → List Char
  | .mk _ f _ _ _ _ _ _ => f

def MetaError.Line : MetaError → Int
  | .mk _ _ l _ _ _ _ _ => l

def MetaError.Func : MetaError → List Char
  | .mk _ _ _ f _ _ _ _ => f

def MetaError.Package : MetaError → List Char
  | .mk _ _ _ _ p _ _ _ => p

def MetaError.stackTrace : MetaError → List Nat
  | .mk _ _ _ _ _ s _ _ => s

def MetaError.stackTraceString : MetaError → List Char
  | .mk _ _ _ _ _ _ s _ => s

def MetaError.asCSV : MetaError → Bool
  | .mk _ _ _ _ _ _ _ a => a

@[simp] theorem MetaError.Err_mk (e f l fn p st ss a) :
    (MetaError.mk e f l fn p st ss a).Err = e := rfl
@[simp] theorem MetaError.File_mk (e f l fn p st ss a) :
    (MetaError.mk e f l fn p st ss a).File = f := rfl
@[simp] theorem MetaError.Line_mk (e f l fn p st ss a) :
    (MetaError.mk e f l fn p st ss a).Line = l := rfl
@[simp] theorem MetaError.Func_mk (e f l fn p st ss a) :
    (MetaError.mk e f l fn p st ss a).Func = fn := rfl
@[simp] theorem MetaError.Package_mk (e f l fn p st ss a) :
    (MetaError.mk e f l fn p st ss a).Package = p := rfl
@[simp] theorem MetaError.stackTrace_mk (e f l fn p st ss a) :
    (MetaError.mk e f l fn p st ss a).stackTrace = st := rfl
@[simp] theorem MetaError.stackTraceString_mk (e f l fn p st ss a) :
    (MetaError.mk e f l fn p st ss a).stackTraceString = ss := rfl
@[simp] theorem MetaError.asCSV_mk (e f l fn p st ss a) :
    (MetaError.mk e f l fn p st ss a).asCSV = a := rfl

/-- `error.Error()` for a Go error value; for a `*MetaError` this is
`(*MetaError).Error` (`"<nil>"` when the wrapped error is nil, else the
wrapped error's message). -/
def GoError.errorMsg : GoError → List Char
  | .base msg => msg
  | .meta (.mk none _ _ _ _ _ _ _) => gs "<nil>"
  | .meta (.mk (some e) _ _ _ _ _ _ _) => GoError.errorMsg e

/-- `(*MetaError).Error()`. -/
def MetaError.errorMsg (m : MetaError) : List Char :=
  match m.Err with
  | none => gs "<nil>"
  | some e => e.errorMsg

/-! ## `meta_error.go`: construction and operations -/

/-- `maxStackDepth` constant. -/
def maxStackDepth : Nat := 1024

/-- `initialStackSize` constant. -/
def initialStackSize : Nat := 64

/-- Result of the `runtime.Caller` + `runtime.FuncForPC` introspection at the
constructor's skip depth: found flag, file, line, and the caller's full
function name (`none` models `runtime.FuncForPC` returning nil). -/
structure CallerInfo where
  ok : Bool
  file : List Char
  line : Int
  fnName : Option (List Char)

/-- The buffer-growth loop of the stack capture in `NewMetaErrorOptions`.
`runtime.Callers` is the oracle `cbl` (buffer capacity ↦ list of frames
written).  The loop repeats while the previous call filled the buffer exactly
and the capacity is below `maxStackDepth`, doubling the capacity.  It is
modelled with a fuel argument that strictly exceeds the possible number of
doublings (the capacity doubles from 64 and the guard stops at 1024, so at
most 4 doublings happen); the fuel is never exhausted.  Returns the buffer
sizes used after the initial one, and the final buffer size. -/
def captureStackAux (cbl : Nat → List Nat) : Nat → Nat → List Nat × Nat
  | 0, size => ([], size)
  | fuel + 1, size =>
    if (cbl size).length = size ∧ size < maxStackDepth then
      let r := captureStackAux cbl fuel (2 * size)
      (2 * size :: r.1, r.2)
    else ([], size)

/-- All buffer capacities passed to `runtime.Callers`, in order. -/
def captureSizes (cbl : Nat → List Nat) : List Nat :=
  initialStackSize :: (captureStackAux cbl 64 initialStackSize).1

/-- The buffer capacity after the growth loop. -/
def captureFinalSize (cbl : Nat → List Nat) : Nat :=
  (captureStackAux cbl 64 initialStackSize).2

/-- The captured stack stored by `NewMetaErrorOptions`: the final buffer,
truncated to `maxStackDepth` if the buffer outgrew it, sliced to the frame
count `n` of the last `runtime.Callers` call (`pcs[:n]`). -/
def captureStack (cbl : Nat → List Nat) : List Nat :=
  let fs := captureFinalSize cbl
  let pcs := cbl fs
  let pcs2 := if maxStackDepth < fs then pcs.take maxStackDepth else pcs
  pcs2.take (cbl fs).length

/-- `NewMetaErrorOptions(err, skip, captureStack, asCSV)`.  The introspection
primitives are the explicit oracles `ci` (for `runtime.Caller` /
`runtime.FuncForPC` at the given skip depth) and `cbl` (for
`runtime.Callers`). -/
def NewMetaErrorOptions (err : Option GoError) (_skip : Int)
    (captureStackFlag asCSV : Bool) (ci : CallerInfo) (cbl : Nat → List Nat) :
    MetaError :=
  let file := if ci.ok then ci.file else gs "unknown"
  let line := if ci.ok then ci.line else 0
  let fp : List Char × List Char :=
    match ci.fnName with
    | none => (gs "unknown", gs "unknown")
    | some fullFuncName =>
      let lastDotIndex := lastIndexGo fullFuncName (gs ".")
      if lastDotIndex = -1 then (gs "unknown", fullFuncName)
      else (fullFuncName.take lastDotIndex.toNat, fullFuncName.drop (lastDotIndex.toNat + 1))
  let stk := if captureStackFlag then captureStack cbl else []
  .mk err (goFilepathBase file) line fp.2 fp.1 stk [] asCSV

/-- `NewMetaError(err)`: returns the argument unchanged when it already is a
`*MetaError`, else constructs with skip 2, stack capture and compact mode
both on. -/
def NewMetaError (err : Option GoError) (ci : CallerInfo) (cbl : Nat → List Nat) :
    MetaError :=
  match err with
  | some (.meta m) => m
  | _ => NewMetaErrorOptions err 2 true true ci cbl

/-- The `ErrNotMetaError` sentinel (`errors.New("error is not a MetaError")`). -/
def ErrNotMetaError : GoError := .base (gs "error is not a MetaError")

/-- `(*MetaError).ToCSV()`: the 5-field `|`-separated record, trailing space
trimmed.  `none` models the nil-interface method-call panic of
`e.Err.Error()` when the wrapped error is nil. -/
def MetaError.ToCSV (m : MetaError) : Option (List Char) :=
  match m.Err with
  | none => none
  | some e => some (goTrimSpace (goCSVWriteRecord
      [e.errorMsg, m.File, goItoa m.Line, m.Func, m.Package]))

/-- `MetaErrorFromCSV`.  (The explicit `len(record) != 5` re-check of the Go
code is subsumed: the reader is configured with `FieldsPerRecord = 5` and
already rejects other field counts.) -/
def MetaErrorFromCSV (csvStr : List Char) : Except GoError MetaError :=
  match goCSVRead5 csvStr with
  | none => .error ErrNotMetaError
  | some record =>
    match goAtoi (record.getD 2 []) with
    | none => .error ErrNotMetaError
    | some line =>
      .ok (.mk (some (.base (record.getD 0 []))) (record.getD 1 []) line
        (record.getD 3 []) (record.getD 4 []) [] [] false)

/-- One frame produced by the `runtime.CallersFrames` lookup. -/
structure FrameInfo where
  function : List Char
  file : List Char
  line : Int

/-- The rendering loop of `StackTrace`: each frame printed as
`"\n" ++ function ++ "\n\t" ++ file ++ ":" ++ line`, in capture order. -/
def renderStack (fl : Nat → FrameInfo) (pcs : List Nat) : List Char :=
  (pcs.map (fun pc =>
    let fr := fl pc
    '\n' :: (fr.function ++ '\n' :: '\t' :: (fr.file ++ ':' :: goItoa fr.line)))).flatten

/-- `(*MetaError).StackTrace()`: returns the rendered string and the receiver
after the call (the method assigns the `stackTraceString` field through the
pointer whenever a stack was captured). -/
def MetaError.StackTraceOp (fl : Nat → FrameInfo) (m : MetaError) :
    List Char × MetaError :=
  if m.stackTrace.isEmpty then ([], m)
  else
    let s := renderStack fl m.stackTrace
    (s, .mk m.Err m.File m.Line m.Func m.Package m.stackTrace s m.asCSV)

/-- The `asCSV` branch of `(*MetaError).Format` (the branch taken by every
compact-mode instance): the byte stream written for verb `verb` with `'+'`
flag state `plus`.  For `%+v` the code writes `ToCSV() ++ "|" ++ StackTrace()`
and then falls through to the default case, which writes `ToCSV()` a second
time; every other verb/flag combination writes `ToCSV()` once.  `none` models
the nil-error panic inside `ToCSV`. -/
def MetaError.FormatCompact (fl : Nat → FrameInfo) (m : MetaError) (verb : Char)
    (plus : Bool) : Option (List Char) :=
  match m.ToCSV with
  | none => none
  | some csv =>
    if verb = 'v' ∧ plus then some (csv ++ '|' :: (m.StackTraceOp fl).1 ++ csv)
    else some csv

/-! ## Proof support -/

/-- `s` contains no `"\r\n"` two-character sequence. -/
def noCRLF : List Char → Bool
  | [] => true
  | [_] => true
  | a :: b :: t => !(a = '\r' ∧ b = '\n') && noCRLF (b :: t)

/-! ## Claims settled by evaluation -/

/-- **C2** (code bug).  The claim says neither component ever panics.  The
code does panic: `parseFuncName("(*T).M")` evaluates
`pkgRecvGenericParen[leftIdx-1]` with `leftIdx = 0` (index out of range), and
`ToCSV` calls `e.Err.Error()` without the nil check that `Error` and the
non-compact `Format` branch perform, so a `MetaError` wrapping a nil error
(reachable via `NewMetaError(nil)`) panics in `ToCSV`.  Both panic sites are
modelled by `none`. -/
theorem c2_no_panic_fails :
    parseFuncName (gs "(*T).M") = none ∧
    (MetaError.mk none (gs "f.go") 1 (gs "F") (gs "p") [] [] true).ToCSV = none ∧
    (NewMetaError none ⟨true, gs "f.go", 1, some (gs "p.F")⟩ (fun _ => [])).ToCSV = none := by
  decide

/-- **C3** (counterexample).  Parsing `"a/b.1.(*File).Read"` does not retain
the dot: the package path comes out as `"a/b"`, not `"a/b.1"` (the
two-dot-segment heuristic in the parenthesized-receiver branch strips `".1"`
as an embedded qualifier). -/
theorem c3_pkg_path_counterexample :
    (parseFuncName (gs "a/b.1.(*File).Read")).map FuncNameResult.pkgPath ≠
      some (gs "a/b.1") := by
  decide

/-- **C3** (amended).  Parsing `"a/b.1.(*File).Read"` yields
`package_path = "a/b"`: the single dotted suffix of the final path segment is
stripped as an embedded-qualifier artifact and recorded in the notice
(`",qualifier (struct or pkg level func) 1\n"`); qualifier `"File"`,
`receiver_is_pointer = true` and `func_name = "Read"` hold as claimed. -/
theorem c3_pkg_path_amended :
    parseFuncName (gs "a/b.1.(*File).Read") =
      some ⟨gs "a/b", gs "File", true, [], [], gs "Read",
        gs ",qualifier (struct or pkg level func) 1\n"⟩ := by
  decide

/-- **C5** (confirmed).  Wrapping is idempotent: handing the constructor an
error that already is a `*MetaError` returns that very object (in this
embedding, the identical value), so `wrap(wrap(e))` with any capture oracles
equals `wrap(e)` — no nested wrapping occurs. -/
theorem c5_wrap_idempotent :
    (∀ (m : MetaError) (ci : CallerInfo) (cbl : Nat → List Nat),
        NewMetaError (some (.meta m)) ci cbl = m) ∧
    (∀ (e : Option GoError) (ci ci2 : CallerInfo) (cbl cbl2 : Nat → List Nat),
        NewMetaError (some (.meta (NewMetaError e ci cbl))) ci2 cbl2 =
          NewMetaError e ci cbl) := by
  exact ⟨fun m _ _ => rfl, fun e ci ci2 cbl cbl2 => rfl⟩

/-- **C8** (confirmed).  The anonymous-closure identifier
`"pkg.Outer.Inner.func1"` parses with `func_name = "Inner"` (the synthetic
`.funcN` suffix stripped, the enclosing name recovered) and the notice is the
anonymous-function marker itself. -/
theorem c8_anonymous_closure :
    parseFuncName (gs "pkg.Outer.Inner.func1") =
      some ⟨gs "pkg", gs "Outer", false, [], [], gs "Inner",
        gs "anonymous function"⟩ := by
  decide

/-! ## The stack-capture loop (C7) -/

theorem captureStackAux_chain (cbl : Nat → List Nat) :
    ∀ (fuel size : Nat),
      List.Chain' (fun a b => b = 2 * a ∧ (cbl a).length = a ∧ a < maxStackDepth)
        (size :: (captureStackAux cbl fuel size).1) := by
  intro fuel
  induction fuel with
  | zero => intro size; simp [captureStackAux]
  | succ f ih =>
    intro size
    by_cases h : (cbl size).length = size ∧ size < maxStackDepth
    · simp only [captureStackAux, if_pos h]
      exact List.chain'_cons.mpr ⟨⟨rfl, h⟩, ih (2 * size)⟩
    · simp [captureStackAux, if_neg h]

theorem captureStackAux_exit (cbl : Nat → List Nat) :
    ∀ (fuel size : Nat), 2 * maxStackDepth ≤ size * 2 ^ fuel →
      ¬ ((cbl (captureStackAux cbl fuel size).2).length = (captureStackAux cbl fuel size).2 ∧
          (captureStackAux cbl fuel size).2 < maxStackDepth) := by
  intro fuel
  induction fuel with
  | zero =>
    intro size hs
    simp only [captureStackAux]
    simp only [pow_zero, mul_one] at hs
    intro hcontra
    omega
  | succ f ih =>
    intro size hs
    by_cases h : (cbl size).length = size ∧ size < maxStackDepth
    · simp only [captureStackAux, if_pos h]
      refine ih (2 * size) ?_
      have heq : 2 * size * 2 ^ f = size * 2 ^ (f + 1) := by ring
      omega
    · simp only [captureStackAux, if_neg h]
      exact h

/-- **C7** (confirmed).  For every behaviour of the frame-capture primitive
(under its contract: it never reports more frames than the buffer capacity),
the growth loop terminates (it is a total function of this development), the
buffer sizes start at 64 and each doubling happens exactly when the previous
call filled the buffer completely while below the 1024 cap, the loop stops
only when that condition fails, and the stored captured stack never exceeds
`maxStackDepth = 1024` frames. -/
theorem c7_capture_loop (cbl : Nat → List Nat) (h : ∀ s, (cbl s).length ≤ s) :
    (captureStack cbl).length ≤ maxStackDepth ∧
    (captureSizes cbl).head? = some initialStackSize ∧
    List.Chain' (fun a b => b = 2 * a ∧ (cbl a).length = a ∧ a < maxStackDepth)
      (captureSizes cbl) ∧
    ¬ ((cbl (captureFinalSize cbl)).length = captureFinalSize cbl ∧
        captureFinalSize cbl < maxStackDepth) := by
  refine ⟨?_, rfl, captureStackAux_chain cbl 64 initialStackSize, ?_⟩
  · unfold captureStack
    by_cases hf : maxStackDepth < captureFinalSize cbl
    · simp only [if_pos hf, List.length_take]
      omega
    · simp only [if_neg hf, List.length_take]
      have := h (captureFinalSize cbl)
      omega
  · exact captureStackAux_exit cbl 64 initialStackSize (by norm_num [maxStackDepth, initialStackSize])

/-- Witness for `c7_capture_loop`: a primitive that reports
`min capacity 100` frames satisfies the contract; the loop uses buffers 64 and
128 and stores 100 frames. -/
theorem c7_capture_loop_witness :
    (∀ s, ((fun s => List.replicate (min s 100) (0 : Nat)) s).length ≤ s) ∧
    ((captureStack (fun s => List.replicate (min s 100) (0 : Nat))).length ≤ maxStackDepth ∧
     (captureSizes (fun s => List.replicate (min s 100) (0 : Nat))).head? =
        some initialStackSize ∧
     List.Chain' (fun a b => b = 2 * a ∧
        ((fun s => List.replicate (min s 100) (0 : Nat)) a).length = a ∧ a < maxStackDepth)
       (captureSizes (fun s => List.replicate (min s 100) (0 : Nat))) ∧
     ¬ (((fun s => List.replicate (min s 100) (0 : Nat))
            (captureFinalSize (fun s => List.replicate (min s 100) (0 : Nat)))).length =
          captureFinalSize (fun s => List.replicate (min s 100) (0 : Nat)) ∧
        captureFinalSize (fun s => List.replicate (min s 100) (0 : Nat)) < maxStackDepth)) :=
  ⟨fun s => by simp [Nat.min_le_left s 100],
   c7_capture_loop _ (fun s => by simp [Nat.min_le_left s 100])⟩

/-! ## Stack-trace rendering and the one mutable field (C9) -/

/-- **C9** (confirmed).  `StackTrace` changes nothing but the
`stackTraceString` field; calling it again on the updated instance returns
the identical string and leaves the instance unchanged (so after
construction the field is changed at most once, by the first call); and with
no captured stack it returns the empty string and writes nothing. -/
theorem c9_stack_trace_memo (fl : Nat → FrameInfo) (m : MetaError) :
    ((m.StackTraceOp fl).2.Err = m.Err ∧
     (m.StackTraceOp fl).2.File = m.File ∧
     (m.StackTraceOp fl).2.Line = m.Line ∧
     (m.StackTraceOp fl).2.Func = m.Func ∧
     (m.StackTraceOp fl).2.Package = m.Package ∧
     (m.StackTraceOp fl).2.stackTrace = m.stackTrace ∧
     (m.StackTraceOp fl).2.asCSV = m.asCSV) ∧
    (m.StackTraceOp fl).2.StackTraceOp fl = m.StackTraceOp fl ∧
    (m.stackTrace = [] → m.StackTraceOp fl = ([], m)) := by
  cases m with
  | mk e f l fn p st ss a =>
    by_cases hst : st.isEmpty
    · have hnil : st = [] := by simpa using hst
      subst hnil
      simp [MetaError.StackTraceOp, MetaError.stackTrace]
    · constructor
      · simp [MetaError.StackTraceOp, MetaError.stackTrace, hst, MetaError.Err,
          MetaError.File, MetaError.Line, MetaError.Func, MetaError.Package,
          MetaError.asCSV]
      · constructor
        · simp [MetaError.StackTraceOp, MetaError.stackTrace, hst]
        · intro hnil
          simp [MetaError.stackTrace] at hnil
          simp [hnil] at hst

/-- Witness for `c9_stack_trace_memo` at a concrete frame table and a
concrete instance with an empty captured stack. -/
theorem c9_stack_trace_memo_witness :
    (((MetaError.mk none (gs "f.go") 1 (gs "F") (gs "p") [] [] false).StackTraceOp
        (fun _ => ⟨[], [], 0⟩)).2.Err =
      (MetaError.mk none (gs "f.go") 1 (gs "F") (gs "p") [] [] false).Err ∧
     ((MetaError.mk none (gs "f.go") 1 (gs "F") (gs "p") [] [] false).StackTraceOp
        (fun _ => ⟨[], [], 0⟩)).2.File =
      (MetaError.mk none (gs "f.go") 1 (gs "F") (gs "p") [] [] false).File ∧
     ((MetaError.mk none (gs "f.go") 1 (gs "F") (gs "p") [] [] false).StackTraceOp
        (fun _ => ⟨[], [], 0⟩)).2.Line =
      (MetaError.mk none (gs "f.go") 1 (gs "F") (gs "p") [] [] false).Line ∧
     ((MetaError.mk none (gs "f.go") 1 (gs "F") (gs "p") [] [] false).StackTraceOp
        (fun _ => ⟨[], [], 0⟩)).2.Func =
      (MetaError.mk none (gs "f.go") 1 (gs "F") (gs "p") [] [] false).Func ∧
     ((MetaError.mk none (gs "f.go") 1 (gs "F") (gs "p") [] [] false).StackTraceOp
        (fun _ => ⟨[], [], 0⟩)).2.Package =
      (MetaError.mk none (gs "f.go") 1 (gs "F") (gs "p") [] [] false).Package ∧
     ((MetaError.mk none (gs "f.go") 1 (gs "F") (gs "p") [] [] false).StackTraceOp
        (fun _ => ⟨[], [], 0⟩)).2.stackTrace =
      (MetaError.mk none (gs "f.go") 1 (gs "F") (gs "p") [] [] false).stackTrace ∧
     ((MetaError.mk none (gs "f.go") 1 (gs "F") (gs "p") [] [] false).StackTraceOp
        (fun _ => ⟨[], [], 0⟩)).2.asCSV =
      (MetaError.mk none (gs "f.go") 1 (gs "F") (gs "p") [] [] false).asCSV) ∧
    ((MetaError.mk none (gs "f.go") 1 (gs "F") (gs "p") [] [] false).StackTraceOp
        (fun _ => ⟨[], [], 0⟩)).2.StackTraceOp (fun _ => ⟨[], [], 0⟩) =
      (MetaError.mk none (gs "f.go") 1 (gs "F") (gs "p") [] [] false).StackTraceOp
        (fun _ => ⟨[], [], 0⟩) ∧
    ((MetaError.mk none (gs "f.go") 1 (gs "F") (gs "p") [] [] false).stackTrace = [] →
      (MetaError.mk none (gs "f.go") 1 (gs "F") (gs "p") [] [] false).StackTraceOp
        (fun _ => ⟨[], [], 0⟩) =
        ([], MetaError.mk none (gs "f.go") 1 (gs "F") (gs "p") [] [] false)) :=
  c9_stack_trace_memo (fun _ => ⟨[], [], 0⟩)
    (MetaError.mk none (gs "f.go") 1 (gs "F") (gs "p") [] [] false)

/-! ## `filepath.Base` and the stored file name (C10) -/

theorem dropWhile_head_false {p : Char → Bool} :
    ∀ (l : List Char) (c : Char), (l.dropWhile p).head? = some c → p c = false := by
  intro l
  induction l with
  | nil => intro c h; simp [List.dropWhile] at h
  | cons x t ih =>
    intro c h
    by_cases hx : p x
    · rw [List.dropWhile_cons, if_pos hx] at h
      exact ih c h
    · rw [List.dropWhile_cons, if_neg hx] at h
      simp only [List.head?_cons, Option.some.injEq] at h
      subst h
      simpa using hx

theorem goFilepathBase_no_slash {p : List Char} (h : ∃ c ∈ p, c ≠ '/') :
    '/' ∉ goFilepathBase p := by
  obtain ⟨c0, hc0mem, hc0⟩ := h
  have hpe : p.isEmpty = false := by
    cases p with
    | nil => simp at hc0mem
    | cons x t => rfl
  have hq : p.reverse.dropWhile (fun c => c = '/') ≠ [] := by
    intro hqe
    rw [List.dropWhile_eq_nil_iff] at hqe
    exact hc0 (by simpa using hqe c0 (List.mem_reverse.mpr hc0mem))
  obtain ⟨c1, t1, hq1⟩ := List.exists_cons_of_ne_nil hq
  have hc1 : ¬ (c1 = '/') := by
    have := dropWhile_head_false (p := fun c => c = '/') p.reverse c1 (by rw [hq1]; rfl)
    simpa using this
  have htw : (c1 :: t1).takeWhile (fun c => !(c = '/')) =
      c1 :: t1.takeWhile (fun c => !(c = '/')) := by
    rw [List.takeWhile_cons]
    simp [hc1]
  unfold goFilepathBase
  rw [hpe]
  simp only [Bool.false_eq_true, if_false, List.reverse_reverse, hq1, htw]
  rw [if_neg (by simp)]
  intro hmem
  rw [List.mem_reverse] at hmem
  rcases List.mem_cons.mp hmem with h1 | h2
  · exact hc1 h1.symm
  · have := List.mem_takeWhile_imp h2
    simp at this

/-- **C10** (confirmed).  The constructor stores as `File` exactly
`filepath.Base` of the file reported by the introspection primitive (or of
`"unknown"` on introspection failure); whenever that path has any
non-separator character, the stored name contains no `/` — the directory
portion is stripped. -/
theorem c10_file_base_name (err : Option GoError) (skip : Int) (cs acsv : Bool)
    (ci : CallerInfo) (cbl : Nat → List Nat) :
    (NewMetaErrorOptions err skip cs acsv ci cbl).File =
      goFilepathBase (if ci.ok then ci.file else gs "unknown") ∧
    ((∃ c ∈ (if ci.ok then ci.file else gs "unknown"), c ≠ '/') →
      '/' ∉ (NewMetaErrorOptions err skip cs acsv ci cbl).File) := by
  refine ⟨rfl, fun h => ?_⟩
  have := goFilepathBase_no_slash h
  simpa [NewMetaErrorOptions, MetaError.File] using this

/-! ## `Atoi` inverts `Itoa` (for C1) -/

theorem natDigitsAux_eq_digits : ∀ (fuel n : Nat), n ≤ fuel →
    natDigitsAux fuel n = Nat.digits 10 n := by
  intro fuel
  induction fuel with
  | zero =>
    intro n hn
    have hz : n = 0 := Nat.le_zero.mp hn
    subst hz
    simp [natDigitsAux]
  | succ f ih =>
    intro n hn
    match n with
    | 0 => simp [natDigitsAux]
    | m + 1 =>
      have hstep : natDigitsAux (f + 1) (m + 1) =
          (m + 1) % 10 :: natDigitsAux f ((m + 1) / 10) := rfl
      rw [hstep]
      have hdiv : (m + 1) / 10 ≤ f := by
        have hlt : (m + 1) / 10 < m + 1 := Nat.div_lt_self (Nat.succ_pos m) (by norm_num)
        omega
      rw [ih _ hdiv, Nat.digits_def' (b := 10) (by norm_num) (Nat.succ_pos m)]

theorem natToDecimal_eq_digits (n : Nat) :
    natToDecimal n = if n = 0 then ['0'] else ((Nat.digits 10 n).map Nat.digitChar).reverse := by
  unfold natToDecimal
  by_cases h : n = 0
  · simp [h]
  · rw [if_neg h, if_neg h, natDigitsAux_eq_digits n n le_rfl]

theorem digitChar_is_digit {d : Nat} (hd : d < 10) :
    '0' ≤ Nat.digitChar d ∧ Nat.digitChar d ≤ '9' := by
  interval_cases d <;> decide

theorem decDigitVal_digitChar {d : Nat} (hd : d < 10) :
    decDigitVal (Nat.digitChar d) = some d := by
  interval_cases d <;> decide

theorem natToDecimal_chars (n : Nat) :
    ∀ c ∈ natToDecimal n, '0' ≤ c ∧ c ≤ '9' := by
  rw [natToDecimal_eq_digits]
  by_cases h : n = 0
  · rw [if_pos h]
    intro c hc
    rw [List.mem_singleton] at hc
    subst hc
    decide
  · rw [if_neg h]
    intro c hc
    rw [List.mem_reverse, List.mem_map] at hc
    obtain ⟨d, hd, rfl⟩ := hc
    exact digitChar_is_digit (Nat.digits_lt_base (by norm_num) hd)

theorem natToDecimal_ne_nil (n : Nat) : natToDecimal n ≠ [] := by
  rw [natToDecimal_eq_digits]
  by_cases h : n = 0
  · simp [h]
  · rw [if_neg h]
    simp [Nat.digits_ne_nil_iff_ne_zero.mpr h]

theorem decimalValAux_append (xs ys : List Char) (acc : Nat) :
    decimalValAux (xs ++ ys) acc =
      (decimalValAux xs acc).bind (fun a => decimalValAux ys a) := by
  induction xs generalizing acc with
  | nil => rfl
  | cons c t ih =>
    cases h : decDigitVal c with
    | none => simp [decimalValAux, h]
    | some d => simp [decimalValAux, h, ih]

theorem decimalValAux_digits (ds : List Nat) (hds : ∀ d ∈ ds, d < 10) (acc : Nat) :
    decimalValAux ((ds.map Nat.digitChar).reverse) acc =
      some (acc * 10 ^ ds.length + Nat.ofDigits 10 ds) := by
  induction ds generalizing acc with
  | nil => simp [decimalValAux, Nat.ofDigits]
  | cons d t ih =>
    have hd : d < 10 := hds d (List.mem_cons_self d t)
    have ht : ∀ x ∈ t, x < 10 := fun x hx => hds x (List.mem_cons_of_mem d hx)
    have hone : ∀ a : Nat, decimalValAux [Nat.digitChar d] a = some (a * 10 + d) := by
      intro a
      simp [decimalValAux, decDigitVal_digitChar hd]
    rw [List.map_cons, List.reverse_cons, decimalValAux_append, ih ht acc]
    rw [Option.some_bind, hone]
    congr 1
    rw [Nat.ofDigits_cons]
    simp [List.length_cons, pow_succ]
    ring

theorem decimalVal_natToDecimal (n : Nat) : decimalVal (natToDecimal n) = some n := by
  by_cases h : n = 0
  · subst h; decide
  · have hne : natToDecimal n ≠ [] := natToDecimal_ne_nil n
    unfold decimalVal
    rw [if_neg (by simpa [List.isEmpty_iff] using hne)]
    rw [natToDecimal_eq_digits, if_neg h]
    rw [decimalValAux_digits _ (fun d hd => Nat.digits_lt_base (by norm_num) hd) 0]
    simp [Nat.ofDigits_digits]

theorem goAtoi_goItoa (n : Int) (h1 : int64Min ≤ n) (h2 : n ≤ int64Max) :
    goAtoi (goItoa n) = some n := by
  by_cases hn : n < 0
  · have hit : goItoa n = '-' :: natToDecimal (-n).toNat := by rw [goItoa, if_pos hn]
    rw [hit]
    have hred : goAtoi ('-' :: natToDecimal (-n).toNat) =
        (decimalVal (natToDecimal (-n).toNat)).bind (fun m =>
          if int64Min ≤ -(m : Int) then some (-(m : Int)) else none) := by
      simp [goAtoi]
    rw [hred, decimalVal_natToDecimal, Option.some_bind]
    have hm : (((-n).toNat : Nat) : Int) = -n := Int.toNat_of_nonneg (by omega)
    rw [hm, if_pos (by omega)]
    simp
  · have hit : goItoa n = natToDecimal n.toNat := by rw [goItoa, if_neg hn]
    rw [hit]
    obtain ⟨c, t, hct⟩ : ∃ c t, natToDecimal n.toNat = c :: t := by
      cases hcase : natToDecimal n.toNat with
      | nil => exact absurd hcase (natToDecimal_ne_nil n.toNat)
      | cons c t => exact ⟨c, t, rfl⟩
    have hc : '0' ≤ c ∧ c ≤ '9' :=
      natToDecimal_chars n.toNat c (by rw [hct]; exact List.mem_cons_self c t)
    have hcm : ¬ (c = '-') := by
      intro hcc
      subst hcc
      revert hc
      decide
    have hcp : ¬ (c = '+') := by
      intro hcc
      subst hcc
      revert hc
      decide
    rw [hct]
    have hred : goAtoi (c :: t) = (decimalVal (c :: t)).bind (fun m =>
        if (m : Int) ≤ int64Max then some (m : Int) else none) := by
      simp [goAtoi, hcm, hcp]
    rw [hred, ← hct, decimalVal_natToDecimal, Option.some_bind]
    have hm : ((n.toNat : Nat) : Int) = n := Int.toNat_of_nonneg (by omega)
    rw [hm, if_pos h2]

/-- Witness for `c10_file_base_name`: a caller reporting `/app/main.go`. -/
theorem c10_file_base_name_witness :
    (∃ c ∈ (if (CallerInfo.mk true (gs "/app/main.go") 42 none).ok
        then (CallerInfo.mk true (gs "/app/main.go") 42 none).file else gs "unknown"),
      c ≠ '/') ∧
    (NewMetaErrorOptions none 2 false false
        (CallerInfo.mk true (gs "/app/main.go") 42 none) (fun _ => [])).File =
      goFilepathBase (if (CallerInfo.mk true (gs "/app/main.go") 42 none).ok
        then (CallerInfo.mk true (gs "/app/main.go") 42 none).file else gs "unknown") ∧
    '/' ∉ (NewMetaErrorOptions none 2 false false
        (CallerInfo.mk true (gs "/app/main.go") 42 none) (fun _ => [])).File :=
  ⟨by decide,
   (c10_file_base_name none 2 false false
      (CallerInfo.mk true (gs "/app/main.go") 42 none) (fun _ => [])).1,
   (c10_file_base_name none 2 false false
      (CallerInfo.mk true (gs "/app/main.go") 42 none) (fun _ => [])).2 (by decide)⟩

/-! ## `noCRLF` and the reader's line normalization (for C1) -/

theorem noCRLF_cons_cons (a b : Char) (t : List Char) :
    noCRLF (a :: b :: t) = (!decide (a = '\r' ∧ b = '\n') && noCRLF (b :: t)) := rfl

theorem noCRLF_tail {a : Char} {t : List Char} (h : noCRLF (a :: t) = true) :
    noCRLF t = true := by
  cases t with
  | nil => rfl
  | cons b t2 =>
    rw [noCRLF_cons_cons, Bool.and_eq_true] at h
    exact h.2

theorem noCRLF_head_pair {a b : Char} {t : List Char} (h : noCRLF (a :: b :: t) = true) :
    ¬ (a = '\r' ∧ b = '\n') := by
  rw [noCRLF_cons_cons, Bool.and_eq_true] at h
  have h1 := h.1
  intro hab
  rw [hab.1, hab.2] at h1
  simp at h1

theorem noCRLF_cons_of_head {a : Char} {t : List Char} (h : noCRLF t = true)
    (hh : a = '\r' → t.head? ≠ some '\n') : noCRLF (a :: t) = true := by
  cases t with
  | nil => rfl
  | cons b t2 =>
    rw [noCRLF_cons_cons, Bool.and_eq_true]
    refine ⟨?_, h⟩
    simp only [Bool.not_eq_eq_eq_not, Bool.not_true, decide_eq_false_iff_not]
    rintro ⟨ha, hb⟩
    exact hh ha (by simp [hb])

theorem noCRLF_append {a b : List Char} (ha : noCRLF a = true) (hb : noCRLF b = true)
    (hab : ∀ c, a.getLast? = some c → c = '\r' → b.head? ≠ some '\n') :
    noCRLF (a ++ b) = true := by
  induction a with
  | nil => simpa using hb
  | cons x t ih =>
    cases t with
    | nil =>
      simp only [List.cons_append, List.nil_append]
      refine noCRLF_cons_of_head hb ?_
      intro hx
      exact hab x rfl hx
    | cons z t2 =>
      simp only [List.cons_append]
      refine noCRLF_cons_of_head ?_ ?_
      · exact ih (noCRLF_tail ha) (fun c hc => hab c (by rwa [List.getLast?_cons_cons]))
      · intro hx hhd
        have hz : z = '\n' := by simpa using hhd
        exact noCRLF_head_pair ha ⟨hx, hz⟩

theorem noCRLF_of_no_cr : ∀ {s : List Char}, (∀ c ∈ s, c ≠ '\r') → noCRLF s = true := by
  intro s
  induction s with
  | nil => intro _; rfl
  | cons a t ih =>
    intro h
    refine noCRLF_cons_of_head (ih fun c hc => h c (List.mem_cons_of_mem a hc)) ?_
    intro ha
    exact absurd ha (h a (List.mem_cons_self a t))

theorem noCRLF_goItoa (n : Int) : noCRLF (goItoa n) = true := by
  refine noCRLF_of_no_cr ?_
  intro c hc hcr
  subst hcr
  unfold goItoa at hc
  by_cases hn : n < 0
  · rw [if_pos hn] at hc
    rcases List.mem_cons.mp hc with h1 | h2
    · exact absurd h1 (by decide)
    · have := natToDecimal_chars _ _ h2
      revert this
      decide
  · rw [if_neg hn] at hc
    have := natToDecimal_chars _ _ hc
    revert this
    decide

theorem normalizeNL_eq_self : ∀ (s : List Char), noCRLF s = true →
    s.getLast? ≠ some '\r' → normalizeNL s = s := by
  intro s
  induction s with
  | nil => intro _ _; rfl
  | cons a t ih =>
    intro hcr hlast
    cases t with
    | nil =>
      have ha : ¬ (a = '\r') := by
        intro h
        exact hlast (by rw [h]; rfl)
      show normalizeNL [a] = [a]
      simp [normalizeNL, ha]
    | cons b t2 =>
      have hpair := noCRLF_head_pair hcr
      show normalizeNL (a :: b :: t2) = a :: b :: t2
      rw [show normalizeNL (a :: b :: t2) =
          (if a = '\r' ∧ b = '\n' then '\n' :: normalizeNL t2
           else a :: normalizeNL (b :: t2)) from rfl]
      rw [if_neg hpair]
      congr 1
      exact ih (noCRLF_tail hcr) (by rwa [List.getLast?_cons_cons] at hlast)

/-! ## `TrimSpace` on a written record (for C1) -/

theorem dropWhile_eq_self_of_head {p : Char → Bool} {l : List Char}
    (h : ∀ c, l.head? = some c → p c = false) : l.dropWhile p = l := by
  cases l with
  | nil => rfl
  | cons x t => rw [List.dropWhile_cons, if_neg (by simp [h x rfl])]

theorem goTrimSpace_append_newline (a : List Char) (hne : a ≠ [])
    (hh : ∀ c, a.head? = some c → goIsSpace c = false)
    (hl : ∀ c, a.getLast? = some c → goIsSpace c = false) :
    goTrimSpace (a ++ ['\n']) = a := by
  obtain ⟨x, t, rfl⟩ := List.exists_cons_of_ne_nil hne
  have hx : goIsSpace x = false := hh x rfl
  unfold goTrimSpace
  rw [List.cons_append, List.dropWhile_cons, if_neg (by simp [hx])]
  rw [show (x :: (t ++ ['\n'])).reverse = '\n' :: (x :: t).reverse from by simp]
  rw [List.dropWhile_cons, if_pos (by decide)]
  rw [dropWhile_eq_self_of_head (fun c hc => hl c (by rwa [List.head?_reverse] at hc))]
  simp

/-! ## The reader inverts the writer, field by field (for C1) -/

/-- A character that neither terminates nor disturbs an unquoted field. -/
def plainChar (c : Char) : Bool := !decide (c = '"' ∨ c = '|' ∨ c = '\n')

theorem fieldNeedsQuotes_false_plain {f : List Char} (hq : fieldNeedsQuotes f = false) :
    f.all plainChar = true := by
  rw [List.all_eq_true]
  intro c hc
  have hne : f.isEmpty = false := by
    cases f with
    | nil => simp at hc
    | cons x t => rfl
  have hany : (f.any fun c => decide (c = '|' ∨ c = '"' ∨ c = '\r' ∨ c = '\n')) = false := by
    cases hA : (f.any fun c => decide (c = '|' ∨ c = '"' ∨ c = '\r' ∨ c = '\n')) with
    | false => rfl
    | true =>
      unfold fieldNeedsQuotes at hq
      rw [if_neg (by simp [hne]), hA] at hq
      by_cases hdot : f = gs "\\."
      · rw [if_pos hdot] at hq
        simp at hq
      · rw [if_neg hdot] at hq
        simp at hq
  have hnc : ¬ (c = '|' ∨ c = '"' ∨ c = '\r' ∨ c = '\n') := by
    intro hor
    have hT : (f.any fun c => decide (c = '|' ∨ c = '"' ∨ c = '\r' ∨ c = '\n')) = true :=
      List.any_eq_true.mpr ⟨c, hc, by simpa using hor⟩
    rw [hany] at hT
    simp at hT
  simp only [plainChar, Bool.not_eq_eq_eq_not, Bool.not_true, decide_eq_false_iff_not]
  intro hor
  rcases hor with h | h | h
  · exact hnc (Or.inr (Or.inl h))
  · exact hnc (Or.inl h)
  · exact hnc (Or.inr (Or.inr (Or.inr h)))

theorem goCSVScan_unquoted_go {f : List Char} (hp : f.all plainChar = true) :
    ∀ (t fld : List Char) (r : List (List Char)),
      goCSVScan (f ++ '|' :: t) .unquoted fld r =
        goCSVScan t .fieldStart [] (r ++ [fld ++ f]) := by
  induction f with
  | nil =>
    intro t fld r
    simp [goCSVScan]
  | cons c f2 ih =>
    intro t fld r
    obtain ⟨hq, hpp, hn⟩ : ¬ (c = '"') ∧ ¬ (c = '|') ∧ ¬ (c = '\n') := by
      have := (List.all_eq_true.mp hp) c (List.mem_cons_self c f2)
      simpa [plainChar] using this
    have hf2 : f2.all plainChar = true := by
      rw [List.all_eq_true] at hp ⊢
      exact fun x hx => hp x (List.mem_cons_of_mem c hx)
    show goCSVScan (c :: (f2 ++ '|' :: t)) .unquoted fld r = _
    rw [show goCSVScan (c :: (f2 ++ '|' :: t)) .unquoted fld r =
        (if c = '"' then none
         else if c = '|' then goCSVScan (f2 ++ '|' :: t) .fieldStart [] (r ++ [fld])
         else if c = '\n' then some (r ++ [fld])
         else goCSVScan (f2 ++ '|' :: t) .unquoted (fld ++ [c]) r) from rfl]
    rw [if_neg hq, if_neg hpp, if_neg hn, ih hf2 t (fld ++ [c]) r]
    simp

theorem goCSVScan_unquoted_end {f : List Char} (hp : f.all plainChar = true) :
    ∀ (fld : List Char) (r : List (List Char)),
      goCSVScan f .unquoted fld r = some (r ++ [fld ++ f]) := by
  induction f with
  | nil =>
    intro fld r
    simp [goCSVScan]
  | cons c f2 ih =>
    intro fld r
    obtain ⟨hq, hpp, hn⟩ : ¬ (c = '"') ∧ ¬ (c = '|') ∧ ¬ (c = '\n') := by
      have := (List.all_eq_true.mp hp) c (List.mem_cons_self c f2)
      simpa [plainChar] using this
    have hf2 : f2.all plainChar = true := by
      rw [List.all_eq_true] at hp ⊢
      exact fun x hx => hp x (List.mem_cons_of_mem c hx)
    rw [show goCSVScan (c :: f2) .unquoted fld r =
        (if c = '"' then none
         else if c = '|' then goCSVScan f2 .fieldStart [] (r ++ [fld])
         else if c = '\n' then some (r ++ [fld])
         else goCSVScan f2 .unquoted (fld ++ [c]) r) from rfl]
    rw [if_neg hq, if_neg hpp, if_neg hn, ih hf2 (fld ++ [c]) r]
    simp

theorem goCSVScan_quoted_go (f : List Char) :
    ∀ (t fld : List Char) (r : List (List Char)),
      goCSVScan (escapeQuotes f ++ '"' :: '|' :: t) .quoted fld r =
        goCSVScan t .fieldStart [] (r ++ [fld ++ f]) := by
  induction f with
  | nil =>
    intro t fld r
    simp [escapeQuotes, goCSVScan]
  | cons c f2 ih =>
    intro t fld r
    by_cases hc : c = '"'
    · subst hc
      rw [show escapeQuotes ('"' :: f2) = '"' :: '"' :: escapeQuotes f2 from by
        simp [escapeQuotes]]
      rw [show ('"' :: '"' :: escapeQuotes f2) ++ '"' :: '|' :: t =
          '"' :: '"' :: (escapeQuotes f2 ++ '"' :: '|' :: t) from by simp]
      rw [show goCSVScan ('"' :: '"' :: (escapeQuotes f2 ++ '"' :: '|' :: t)) .quoted fld r =
          goCSVScan ('"' :: (escapeQuotes f2 ++ '"' :: '|' :: t)) .afterQuote fld r from by
        simp [goCSVScan]]
      rw [show goCSVScan ('"' :: (escapeQuotes f2 ++ '"' :: '|' :: t)) .afterQuote fld r =
          goCSVScan (escapeQuotes f2 ++ '"' :: '|' :: t) .quoted (fld ++ ['"']) r from by
        simp [goCSVScan]]
      rw [ih t (fld ++ ['"']) r]
      simp
    · rw [show escapeQuotes (c :: f2) = c :: escapeQuotes f2 from by simp [escapeQuotes, hc]]
      rw [show (c :: escapeQuotes f2) ++ '"' :: '|' :: t =
          c :: (escapeQuotes f2 ++ '"' :: '|' :: t) from by simp]
      rw [show goCSVScan (c :: (escapeQuotes f2 ++ '"' :: '|' :: t)) .quoted fld r =
          (if c = '"' then goCSVScan (escapeQuotes f2 ++ '"' :: '|' :: t) .afterQuote fld r
           else goCSVScan (escapeQuotes f2 ++ '"' :: '|' :: t) .quoted (fld ++ [c]) r)
          from rfl]
      rw [if_neg hc, ih t (fld ++ [c]) r]
      simp

theorem goCSVScan_quoted_end (f : List Char) :
    ∀ (fld : List Char) (r : List (List Char)),
      goCSVScan (escapeQuotes f ++ ['"']) .quoted fld r = some (r ++ [fld ++ f]) := by
  induction f with
  | nil =>
    intro fld r
    simp [escapeQuotes, goCSVScan]
  | cons c f2 ih =>
    intro fld r
    by_cases hc : c = '"'
    · subst hc
      rw [show escapeQuotes ('"' :: f2) = '"' :: '"' :: escapeQuotes f2 from by
        simp [escapeQuotes]]
      rw [show ('"' :: '"' :: escapeQuotes f2) ++ ['"'] =
          '"' :: '"' :: (escapeQuotes f2 ++ ['"']) from by simp]
      rw [show goCSVScan ('"' :: '"' :: (escapeQuotes f2 ++ ['"'])) .quoted fld r =
          goCSVScan ('"' :: (escapeQuotes f2 ++ ['"'])) .afterQuote fld r from by
        simp [goCSVScan]]
      rw [show goCSVScan ('"' :: (escapeQuotes f2 ++ ['"'])) .afterQuote fld r =
          goCSVScan (escapeQuotes f2 ++ ['"']) .quoted (fld ++ ['"']) r from by
        simp [goCSVScan]]
      rw [ih (fld ++ ['"']) r]
      simp
    · rw [show escapeQuotes (c :: f2) = c :: escapeQuotes f2 from by simp [escapeQuotes, hc]]
      rw [show (c :: escapeQuotes f2) ++ ['"'] = c :: (escapeQuotes f2 ++ ['"']) from by simp]
      rw [show goCSVScan (c :: (escapeQuotes f2 ++ ['"'])) .quoted fld r =
          (if c = '"' then goCSVScan (escapeQuotes f2 ++ ['"']) .afterQuote fld r
           else goCSVScan (escapeQuotes f2 ++ ['"']) .quoted (fld ++ [c]) r) from rfl]
      rw [if_neg hc, ih (fld ++ [c]) r]
      simp

theorem goCSVScan_field_mid (f t : List Char) (r : List (List Char)) :
    goCSVScan (encodeField f ++ '|' :: t) .fieldStart [] r =
      goCSVScan t .fieldStart [] (r ++ [f]) := by
  by_cases hq : fieldNeedsQuotes f
  · unfold encodeField
    rw [if_pos hq]
    rw [show ('"' :: (escapeQuotes f ++ ['"'])) ++ '|' :: t =
        '"' :: (escapeQuotes f ++ '"' :: '|' :: t) from by simp]
    rw [show goCSVScan ('"' :: (escapeQuotes f ++ '"' :: '|' :: t)) .fieldStart [] r =
        goCSVScan (escapeQuotes f ++ '"' :: '|' :: t) .quoted [] r from by simp [goCSVScan]]
    rw [goCSVScan_quoted_go f t [] r]
    simp
  · unfold encodeField
    rw [if_neg hq]
    have hall := fieldNeedsQuotes_false_plain (eq_false_of_ne_true hq)
    cases f with
    | nil => simp [goCSVScan]
    | cons c f2 =>
      obtain ⟨hq1, hpp, hn⟩ : ¬ (c = '"') ∧ ¬ (c = '|') ∧ ¬ (c = '\n') := by
        have := (List.all_eq_true.mp hall) c (List.mem_cons_self c f2)
        simpa [plainChar] using this
      have hf2 : f2.all plainChar = true := by
        rw [List.all_eq_true] at hall ⊢
        exact fun x hx => hall x (List.mem_cons_of_mem c hx)
      show goCSVScan (c :: (f2 ++ '|' :: t)) .fieldStart [] r = _
      rw [show goCSVScan (c :: (f2 ++ '|' :: t)) .fieldStart [] r =
          (if c = '"' then goCSVScan (f2 ++ '|' :: t) .quoted [] r
           else if c = '|' then goCSVScan (f2 ++ '|' :: t) .fieldStart [] (r ++ [[]])
           else if c = '\n' then some (r ++ [[]])
           else goCSVScan (f2 ++ '|' :: t) .unquoted [c] r) from rfl]
      rw [if_neg hq1, if_neg hpp, if_neg hn, goCSVScan_unquoted_go hf2 t [c] r]
      rfl

theorem goCSVScan_field_end (f : List Char) (r : List (List Char)) :
    goCSVScan (encodeField f) .fieldStart [] r = some (r ++ [f]) := by
  by_cases hq : fieldNeedsQuotes f
  · unfold encodeField
    rw [if_pos hq]
    rw [show goCSVScan ('"' :: (escapeQuotes f ++ ['"'])) .fieldStart [] r =
        goCSVScan (escapeQuotes f ++ ['"']) .quoted [] r from by simp [goCSVScan]]
    rw [goCSVScan_quoted_end f [] r]
    simp
  · unfold encodeField
    rw [if_neg hq]
    have hall := fieldNeedsQuotes_false_plain (eq_false_of_ne_true hq)
    cases f with
    | nil => simp [goCSVScan]
    | cons c f2 =>
      obtain ⟨hq1, hpp, hn⟩ : ¬ (c = '"') ∧ ¬ (c = '|') ∧ ¬ (c = '\n') := by
        have := (List.all_eq_true.mp hall) c (List.mem_cons_self c f2)
        simpa [plainChar] using this
      have hf2 : f2.all plainChar = true := by
        rw [List.all_eq_true] at hall ⊢
        exact fun x hx => hall x (List.mem_cons_of_mem c hx)
      rw [show goCSVScan (c :: f2) .fieldStart [] r =
          (if c = '"' then goCSVScan f2 .quoted [] r
           else if c = '|' then goCSVScan f2 .fieldStart [] (r ++ [[]])
           else if c = '\n' then some (r ++ [[]])
           else goCSVScan f2 .unquoted [c] r) from rfl]
      rw [if_neg hq1, if_neg hpp, if_neg hn, goCSVScan_unquoted_end hf2 [c] r]
      rfl

theorem goCSVScan_writeFields :
    ∀ (fs : List (List Char)) (r : List (List Char)), fs ≠ [] →
      goCSVScan (goCSVWriteFields fs) .fieldStart [] r = some (r ++ fs) := by
  intro fs
  induction fs with
  | nil => intro r h; exact absurd rfl h
  | cons f fs2 ih =>
    intro r _
    cases fs2 with
    | nil => simpa using goCSVScan_field_end f r
    | cons g t2 =>
      show goCSVScan (encodeField f ++ '|' :: goCSVWriteFields (g :: t2)) .fieldStart [] r = _
      rw [goCSVScan_field_mid, ih (r ++ [f]) (by simp)]
      simp

/-! ## Shape facts about an encoded field and a 5-field record (for C1) -/

theorem escapeQuotes_head (t : List Char) :
    ∀ c, (escapeQuotes t).head? = some c → c = '"' ∨ t.head? = some c := by
  cases t with
  | nil => intro c hc; simp [escapeQuotes] at hc
  | cons d t2 =>
    intro c hc
    by_cases hd : d = '"'
    · subst hd
      rw [show escapeQuotes ('"' :: t2) = '"' :: '"' :: escapeQuotes t2 from by
        simp [escapeQuotes]] at hc
      simp only [List.head?_cons, Option.some.injEq] at hc
      exact Or.inl hc.symm
    · rw [show escapeQuotes (d :: t2) = d :: escapeQuotes t2 from by
        simp [escapeQuotes, hd]] at hc
      simp only [List.head?_cons, Option.some.injEq] at hc
      exact Or.inr (by rw [← hc]; rfl)

theorem noCRLF_escapeQuotes {f : List Char} (h : noCRLF f = true) :
    noCRLF (escapeQuotes f) = true := by
  induction f with
  | nil => rfl
  | cons c t ih =>
    have hesc := ih (noCRLF_tail h)
    by_cases hc : c = '"'
    · subst hc
      rw [show escapeQuotes ('"' :: t) = '"' :: '"' :: escapeQuotes t from by
        simp [escapeQuotes]]
      refine noCRLF_cons_of_head (noCRLF_cons_of_head hesc ?_) ?_
      · intro hcr; exact absurd hcr (by decide)
      · intro hcr; exact absurd hcr (by decide)
    · rw [show escapeQuotes (c :: t) = c :: escapeQuotes t from by simp [escapeQuotes, hc]]
      refine noCRLF_cons_of_head hesc ?_
      intro hcr hhd
      rcases escapeQuotes_head t '\n' hhd with h1 | h2
      · exact absurd h1 (by decide)
      · subst hcr
        cases t with
        | nil => simp at h2
        | cons b t2 =>
          have hb : b = '\n' := by simpa using h2
          exact noCRLF_head_pair h ⟨rfl, hb⟩

theorem fieldNeedsQuotes_false_head {x : Char} {t : List Char}
    (hq : fieldNeedsQuotes (x :: t) = false) : goIsSpace x = false := by
  unfold fieldNeedsQuotes at hq
  rw [if_neg (by simp)] at hq
  by_cases hdot : (x :: t) = gs "\\."
  · rw [if_pos hdot] at hq; simp at hq
  · rw [if_neg hdot] at hq
    by_cases hA : ((x :: t).any fun c => decide (c = '|' ∨ c = '"' ∨ c = '\r' ∨ c = '\n')) = true
    · rw [if_pos hA] at hq; simp at hq
    · rw [if_neg hA] at hq
      simpa using hq

theorem encodeField_head_not_space (f : List Char) :
    ∀ c, (encodeField f).head? = some c → goIsSpace c = false := by
  intro c hc
  unfold encodeField at hc
  by_cases hq : fieldNeedsQuotes f
  · rw [if_pos hq] at hc
    simp only [List.head?_cons, Option.some.injEq] at hc
    rw [← hc]
    decide
  · rw [if_neg hq] at hc
    cases hf : f with
    | nil => rw [hf] at hc; simp at hc
    | cons x t =>
      rw [hf] at hc
      simp only [List.head?_cons, Option.some.injEq] at hc
      rw [← hc]
      exact fieldNeedsQuotes_false_head (by rw [← hf]; exact eq_false_of_ne_true hq)

theorem encodeField_last_not_space {f : List Char}
    (hl : ∀ c, f.getLast? = some c → goIsSpace c = false) :
    ∀ c, (encodeField f).getLast? = some c → goIsSpace c = false := by
  intro c hc
  unfold encodeField at hc
  by_cases hq : fieldNeedsQuotes f
  · rw [if_pos hq] at hc
    rw [show ('"' :: (escapeQuotes f ++ ['"'])) = ('"' :: escapeQuotes f) ++ ['"'] from by
      simp] at hc
    rw [List.getLast?_concat] at hc
    simp only [Option.some.injEq] at hc
    rw [← hc]
    decide
  · rw [if_neg hq] at hc
    exact hl c hc

theorem noCRLF_encodeField {f : List Char} (h : noCRLF f = true) :
    noCRLF (encodeField f) = true := by
  unfold encodeField
  by_cases hq : fieldNeedsQuotes f
  · rw [if_pos hq]
    refine noCRLF_cons_of_head ?_ (fun hcr => absurd hcr (by decide))
    refine noCRLF_append (noCRLF_escapeQuotes h) rfl ?_
    intro c hc hcr hhd
    simp at hhd
  · rw [if_neg hq]
    exact h

theorem writeFields5_eq (f0 f1 f2 f3 f4 : List Char) :
    goCSVWriteFields [f0, f1, f2, f3, f4] =
      encodeField f0 ++ '|' :: (encodeField f1 ++ '|' :: (encodeField f2 ++ '|' ::
        (encodeField f3 ++ '|' :: encodeField f4))) := rfl

theorem writeFields5_ne_nil (f0 f1 f2 f3 f4 : List Char) :
    goCSVWriteFields [f0, f1, f2, f3, f4] ≠ [] := by
  rw [writeFields5_eq]
  simp

theorem writeFields5_head_not_space (f0 f1 f2 f3 f4 : List Char) :
    ∀ c, (goCSVWriteFields [f0, f1, f2, f3, f4]).head? = some c → goIsSpace c = false := by
  intro c hc
  rw [writeFields5_eq] at hc
  cases hE : encodeField f0 with
  | nil =>
    rw [hE] at hc
    simp only [List.nil_append, List.head?_cons, Option.some.injEq] at hc
    rw [← hc]
    decide
  | cons x t =>
    rw [hE] at hc
    simp only [List.cons_append, List.head?_cons, Option.some.injEq] at hc
    rw [← hc]
    exact encodeField_head_not_space f0 x (by rw [hE]; rfl)

theorem getLast?_pipe_block (E X : List Char) (hX : X ≠ []) :
    (E ++ '|' :: X).getLast? = X.getLast? := by
  rw [List.getLast?_append_cons]
  cases X with
  | nil => exact absurd rfl hX
  | cons y t => rw [List.getLast?_cons_cons]

theorem writeFields5_last_not_space (f0 f1 f2 f3 f4 : List Char)
    (hl : ∀ c, f4.getLast? = some c → goIsSpace c = false) :
    ∀ c, (goCSVWriteFields [f0, f1, f2, f3, f4]).getLast? = some c → goIsSpace c = false := by
  intro c hc
  rw [writeFields5_eq] at hc
  rw [getLast?_pipe_block _ _ (by simp), getLast?_pipe_block _ _ (by simp),
    getLast?_pipe_block _ _ (by simp)] at hc
  rw [List.getLast?_append_cons] at hc
  cases hE : encodeField f4 with
  | nil =>
    rw [hE] at hc
    simp only [List.getLast?_singleton, Option.some.injEq] at hc
    rw [← hc]
    decide
  | cons y t =>
    rw [hE, List.getLast?_cons_cons] at hc
    exact encodeField_last_not_space hl c (by rw [hE]; exact hc)

theorem noCRLF_pipe_block {E X : List Char} (hE : noCRLF E = true) (hX : noCRLF X = true) :
    noCRLF (E ++ '|' :: X) = true := by
  refine noCRLF_append hE (noCRLF_cons_of_head hX (fun h => absurd h (by decide))) ?_
  intro c hc hcr
  simp

theorem noCRLF_writeFields5 (f0 f1 f2 f3 f4 : List Char)
    (h0 : noCRLF f0 = true) (h1 : noCRLF f1 = true) (h2 : noCRLF f2 = true)
    (h3 : noCRLF f3 = true) (h4 : noCRLF f4 = true) :
    noCRLF (goCSVWriteFields [f0, f1, f2, f3, f4]) = true := by
  rw [writeFields5_eq]
  exact noCRLF_pipe_block (noCRLF_encodeField h0)
    (noCRLF_pipe_block (noCRLF_encodeField h1)
      (noCRLF_pipe_block (noCRLF_encodeField h2)
        (noCRLF_pipe_block (noCRLF_encodeField h3) (noCRLF_encodeField h4))))

/-! ## The round trip (C1) -/

/-- Core round-trip lemma: decoding an encoded 5-field record with a numeric
third field recovers the record, provided no field contains a CR-LF sequence
and the last field does not end in white space. -/
theorem metaFromCSV_toCSV_fields (f0 f1 f3 f4 : List Char) (n : Int)
    (h0 : noCRLF f0 = true) (h1 : noCRLF f1 = true) (h3 : noCRLF f3 = true)
    (h4 : noCRLF f4 = true)
    (h4e : ∀ c, f4.getLast? = some c → goIsSpace c = false)
    (hn1 : int64Min ≤ n) (hn2 : n ≤ int64Max) :
    MetaErrorFromCSV (goTrimSpace (goCSVWriteRecord [f0, f1, goItoa n, f3, f4])) =
      .ok (.mk (some (.base f0)) f1 n f3 f4 [] [] false) := by
  have h2 : noCRLF (goItoa n) = true := noCRLF_goItoa n
  have hhead := writeFields5_head_not_space f0 f1 (goItoa n) f3 f4
  have hlastns := writeFields5_last_not_space f0 f1 (goItoa n) f3 f4 h4e
  have hne := writeFields5_ne_nil f0 f1 (goItoa n) f3 f4
  have htrim : goTrimSpace (goCSVWriteRecord [f0, f1, goItoa n, f3, f4]) =
      goCSVWriteFields [f0, f1, goItoa n, f3, f4] := by
    unfold goCSVWriteRecord
    exact goTrimSpace_append_newline _ hne hhead hlastns
  have hlastcr : (goCSVWriteFields [f0, f1, goItoa n, f3, f4]).getLast? ≠ some '\r' := by
    intro hcontra
    have := hlastns '\r' hcontra
    exact absurd this (by decide)
  have hnorm : normalizeNL (goCSVWriteFields [f0, f1, goItoa n, f3, f4]) =
      goCSVWriteFields [f0, f1, goItoa n, f3, f4] :=
    normalizeNL_eq_self _ (noCRLF_writeFields5 f0 f1 (goItoa n) f3 f4 h0 h1 h2 h3 h4) hlastcr
  have hdrop : (goCSVWriteFields [f0, f1, goItoa n, f3, f4]).dropWhile
      (fun c => c = '\n') = goCSVWriteFields [f0, f1, goItoa n, f3, f4] := by
    refine dropWhile_eq_self_of_head ?_
    intro c hc
    have hsp := hhead c hc
    simp only [decide_eq_false_iff_not]
    intro hcn
    subst hcn
    exact absurd hsp (by decide)
  have hraw : goCSVReadRaw (goCSVWriteFields [f0, f1, goItoa n, f3, f4]) =
      some [f0, f1, goItoa n, f3, f4] := by
    unfold goCSVReadRaw
    rw [hnorm, hdrop]
    rw [if_neg (by simpa [List.isEmpty_iff] using hne)]
    exact goCSVScan_writeFields _ [] (by simp)
  have hread : goCSVRead5 (goCSVWriteFields [f0, f1, goItoa n, f3, f4]) =
      some [f0, f1, goItoa n, f3, f4] := by
    unfold goCSVRead5
    rw [hraw]
    rfl
  rw [htrim]
  unfold MetaErrorFromCSV
  rw [hread]
  show (match goAtoi (goItoa n) with
      | none => Except.error ErrNotMetaError
      | some line =>
        Except.ok (MetaError.mk (some (GoError.base f0)) f1 line f3 f4 [] [] false)) =
    Except.ok (MetaError.mk (some (GoError.base f0)) f1 n f3 f4 [] [] false)
  rw [goAtoi_goItoa n hn1 hn2]

/-- **C1** (amended).  For every `MetaError` wrapping a non-nil error — in
particular every one built by the constructor from a non-nil error — whose
message, file, func and package fields contain no CR-LF sequence, whose
package field does not end in white space, and whose line fits a 64-bit `int`
(always true for a Go `int`), `from_record(to_record(x))` succeeds and the
reconstruction's message/file/line/func/package equal `x`'s; the
reconstruction carries no stack and a fresh message-only error, not the
original error value. -/
theorem c1_round_trip (m : MetaError) (e : GoError) (hErr : m.Err = some e)
    (h0 : noCRLF e.errorMsg = true) (h1 : noCRLF m.File = true)
    (h3 : noCRLF m.Func = true) (h4 : noCRLF m.Package = true)
    (h4e : ∀ c, m.Package.getLast? = some c → goIsSpace c = false)
    (hn1 : int64Min ≤ m.Line) (hn2 : m.Line ≤ int64Max) :
    ∃ s m2, m.ToCSV = some s ∧ MetaErrorFromCSV s = .ok m2 ∧
      m2.errorMsg = e.errorMsg ∧ m2.File = m.File ∧ m2.Line = m.Line ∧
      m2.Func = m.Func ∧ m2.Package = m.Package ∧
      m2.stackTrace = [] ∧ m2.stackTraceString = [] ∧
      m2.Err = some (.base e.errorMsg) := by
  have htocsv : m.ToCSV = some (goTrimSpace (goCSVWriteRecord
      [e.errorMsg, m.File, goItoa m.Line, m.Func, m.Package])) := by
    unfold MetaError.ToCSV
    rw [hErr]
  exact ⟨_, _, htocsv,
    metaFromCSV_toCSV_fields e.errorMsg m.File m.Func m.Package m.Line
      h0 h1 h3 h4 h4e hn1 hn2,
    rfl, rfl, rfl, rfl, rfl, rfl, rfl, rfl⟩

/-- Witness for `c1_round_trip`: a `MetaError` built by the constructor from
the non-nil error `"boom"` with a concrete caller frame. -/
theorem c1_round_trip_witness :
    ((NewMetaErrorOptions (some (.base (gs "boom"))) 2 true true
        (CallerInfo.mk true (gs "/app/main.go") 42 (some (gs "a/b.Fn"))) (fun _ => [])).Err =
      some (.base (gs "boom")) ∧
     noCRLF (GoError.base (gs "boom")).errorMsg = true ∧
     noCRLF (NewMetaErrorOptions (some (.base (gs "boom"))) 2 true true
        (CallerInfo.mk true (gs "/app/main.go") 42 (some (gs "a/b.Fn"))) (fun _ => [])).File = true ∧
     noCRLF (NewMetaErrorOptions (some (.base (gs "boom"))) 2 true true
        (CallerInfo.mk true (gs "/app/main.go") 42 (some (gs "a/b.Fn"))) (fun _ => [])).Func = true ∧
     noCRLF (NewMetaErrorOptions (some (.base (gs "boom"))) 2 true true
        (CallerInfo.mk true (gs "/app/main.go") 42 (some (gs "a/b.Fn"))) (fun _ => [])).Package = true) ∧
    (∃ s m2, (NewMetaErrorOptions (some (.base (gs "boom"))) 2 true true
        (CallerInfo.mk true (gs "/app/main.go") 42 (some (gs "a/b.Fn"))) (fun _ => [])).ToCSV =
          some s ∧
      MetaErrorFromCSV s = .ok m2 ∧
      m2.errorMsg = (GoError.base (gs "boom")).errorMsg ∧
      m2.File = (NewMetaErrorOptions (some (.base (gs "boom"))) 2 true true
        (CallerInfo.mk true (gs "/app/main.go") 42 (some (gs "a/b.Fn"))) (fun _ => [])).File ∧
      m2.Line = (NewMetaErrorOptions (some (.base (gs "boom"))) 2 true true
        (CallerInfo.mk true (gs "/app/main.go") 42 (some (gs "a/b.Fn"))) (fun _ => [])).Line ∧
      m2.Func = (NewMetaErrorOptions (some (.base (gs "boom"))) 2 true true
        (CallerInfo.mk true (gs "/app/main.go") 42 (some (gs "a/b.Fn"))) (fun _ => [])).Func ∧
      m2.Package = (NewMetaErrorOptions (some (.base (gs "boom"))) 2 true true
        (CallerInfo.mk true (gs "/app/main.go") 42 (some (gs "a/b.Fn"))) (fun _ => [])).Package ∧
      m2.stackTrace = [] ∧ m2.stackTraceString = [] ∧
      m2.Err = some (.base (GoError.base (gs "boom")).errorMsg)) :=
  ⟨⟨rfl, by decide, by decide, by decide, by decide⟩,
   c1_round_trip
     (NewMetaErrorOptions (some (.base (gs "boom"))) 2 true true
       (CallerInfo.mk true (gs "/app/main.go") 42 (some (gs "a/b.Fn"))) (fun _ => []))
     (.base (gs "boom")) rfl (by decide) (by decide) (by decide) (by decide)
     (by decide) (by decide) (by decide)⟩

/-- **C1** (counterexample).  The claim fails as stated: for the ErrorContext
built from the non-nil error `"a\r\nb"`, `from_record(to_record(x))` succeeds
but the reconstructed message is `"a\nb"` — the reader normalizes the CR-LF
inside the quoted message field — which differs from `x`'s message. -/
theorem c1_round_trip_counterexample :
    ((NewMetaErrorOptions (some (.base (gs "a\r\nb"))) 2 true true
        (CallerInfo.mk true (gs "main.go") 42 (some (gs "pkg.Fn"))) (fun _ => [])).ToCSV.bind
      (fun s => (MetaErrorFromCSV s).toOption)).map (fun m2 => m2.errorMsg) =
      some (gs "a\nb") ∧
    (NewMetaErrorOptions (some (.base (gs "a\r\nb"))) 2 true true
        (CallerInfo.mk true (gs "main.go") 42 (some (gs "pkg.Fn"))) (fun _ => [])).errorMsg =
      gs "a\r\nb" ∧
    gs "a\nb" ≠ gs "a\r\nb" := by
  decide

/-! ## Compact-mode formatting (C4) -/

/-- **C4** (amended).  For a compact-mode instance wrapping a non-nil error,
every verb/flag combination other than `%+v` writes exactly the serialized
5-field record; `%+v` instead writes the record, a `|`, the rendered stack
trace, and then — through the missing `return` before the `fallthrough` — the
record a second time. -/
theorem formatCompact_eq (fl : Nat → FrameInfo) (m : MetaError) (verb : Char)
    (plus : Bool) (csv : List Char) (h : m.ToCSV = some csv) :
    m.FormatCompact fl verb plus =
      if verb = 'v' ∧ plus = true
      then some (csv ++ '|' :: (m.StackTraceOp fl).1 ++ csv)
      else some csv := by
  unfold MetaError.FormatCompact
  rw [h]

theorem c4_compact_format (fl : Nat → FrameInfo) (m : MetaError) (e : GoError)
    (_hc : m.asCSV = true) (he : m.Err = some e) (verb : Char) (plus : Bool) :
    ∃ csv, m.ToCSV = some csv ∧
      (¬ (verb = 'v' ∧ plus = true) → m.FormatCompact fl verb plus = some csv) ∧
      (verb = 'v' → plus = true →
        m.FormatCompact fl verb plus =
          some (csv ++ '|' :: ((m.StackTraceOp fl).1 ++ csv))) := by
  have htocsv : m.ToCSV = some (goTrimSpace (goCSVWriteRecord
      [e.errorMsg, m.File, goItoa m.Line, m.Func, m.Package])) := by
    unfold MetaError.ToCSV
    rw [he]
  refine ⟨_, htocsv, ?_, ?_⟩
  · intro hnot
    rw [formatCompact_eq fl m verb plus _ htocsv, if_neg hnot]
  · intro hv hp
    rw [formatCompact_eq fl m verb plus _ htocsv, if_pos ⟨hv, hp⟩]
    simp

/-- Witness for `c4_compact_format` at a concrete compact-mode instance and
the verb `'s'`. -/
theorem c4_compact_format_witness :
    ((MetaError.mk (some (.base (gs "boom"))) (gs "f.go") 7 (gs "F") (gs "p") [] [] true).asCSV =
        true ∧
     (MetaError.mk (some (.base (gs "boom"))) (gs "f.go") 7 (gs "F") (gs "p") [] [] true).Err =
        some (.base (gs "boom"))) ∧
    (∃ csv, (MetaError.mk (some (.base (gs "boom"))) (gs "f.go") 7 (gs "F") (gs "p")
        [] [] true).ToCSV = some csv ∧
      (¬ ('s' = 'v' ∧ false = true) →
        (MetaError.mk (some (.base (gs "boom"))) (gs "f.go") 7 (gs "F") (gs "p")
          [] [] true).FormatCompact (fun _ => ⟨[], [], 0⟩) 's' false = some csv) ∧
      ('s' = 'v' → false = true →
        (MetaError.mk (some (.base (gs "boom"))) (gs "f.go") 7 (gs "F") (gs "p")
          [] [] true).FormatCompact (fun _ => ⟨[], [], 0⟩) 's' false =
          some (csv ++ '|' :: (((MetaError.mk (some (.base (gs "boom"))) (gs "f.go") 7
            (gs "F") (gs "p") [] [] true).StackTraceOp (fun _ => ⟨[], [], 0⟩)).1 ++ csv)))) :=
  ⟨⟨rfl, rfl⟩,
   c4_compact_format (fun _ => ⟨[], [], 0⟩)
     (MetaError.mk (some (.base (gs "boom"))) (gs "f.go") 7 (gs "F") (gs "p") [] [] true)
     (.base (gs "boom")) rfl rfl 's' false⟩

/-- **C4** (counterexample).  With the `'+'` flag and verb `'v'`, a
compact-mode instance does not format to its 5-field record: the fallthrough
writes `record|stack-trace` and then the record again. -/
theorem c4_compact_format_counterexample :
    (MetaError.mk (some (.base (gs "boom"))) (gs "f.go") 7 (gs "F") (gs "p")
        [] [] true).FormatCompact (fun _ => ⟨[], [], 0⟩) 'v' true =
      some (gs "boom|f.go|7|F|p|boom|f.go|7|F|p") ∧
    (MetaError.mk (some (.base (gs "boom"))) (gs "f.go") 7 (gs "F") (gs "p")
        [] [] true).ToCSV = some (gs "boom|f.go|7|F|p") ∧
    (MetaError.mk (some (.base (gs "boom"))) (gs "f.go") 7 (gs "F") (gs "p")
        [] [] true).FormatCompact (fun _ => ⟨[], [], 0⟩) 'v' true ≠
      (MetaError.mk (some (.base (gs "boom"))) (gs "f.go") 7 (gs "F") (gs "p")
        [] [] true).ToCSV := by
  decide

/-! ## `from_record` rejection behaviour (C6) -/

/-- **C6** (confirmed).  `MetaErrorFromCSV` either fails with exactly the
`ErrNotMetaError` sentinel or succeeds; and it succeeds precisely when the
reader (without the field-count restriction) parses a record of exactly 5
fields whose third field parses as a decimal integer.  Any violation — a
record-lexing error (malformed quoting), a field count other than 5, or a
non-numeric third field — yields `ErrNotMetaError` and no `MetaError`. -/
theorem goCSVRead5_of_raw (s : List Char) (r : List (List Char))
    (h : goCSVReadRaw s = some r) :
    goCSVRead5 s = if r.length = 5 then some r else none := by
  unfold goCSVRead5
  rw [h]

theorem goCSVRead5_of_raw_none (s : List Char) (h : goCSVReadRaw s = none) :
    goCSVRead5 s = none := by
  unfold goCSVRead5
  rw [h]

theorem metaErrorFromCSV_of_read5_none (s : List Char) (h : goCSVRead5 s = none) :
    MetaErrorFromCSV s = .error ErrNotMetaError := by
  unfold MetaErrorFromCSV
  rw [h]

theorem metaErrorFromCSV_of_read5_some (s : List Char) (r : List (List Char))
    (h : goCSVRead5 s = some r) :
    MetaErrorFromCSV s =
      (match goAtoi (r.getD 2 []) with
       | none => .error ErrNotMetaError
       | some line => .ok (.mk (some (.base (r.getD 0 []))) (r.getD 1 []) line
           (r.getD 3 []) (r.getD 4 []) [] [] false)) := by
  unfold MetaErrorFromCSV
  rw [h]

theorem c6_from_record (s : List Char) :
    (MetaErrorFromCSV s = .error ErrNotMetaError ∨ ∃ m, MetaErrorFromCSV s = .ok m) ∧
    ((∃ m, MetaErrorFromCSV s = .ok m) ↔
      ∃ r, goCSVReadRaw s = some r ∧ r.length = 5 ∧ (goAtoi (r.getD 2 [])).isSome = true) := by
  constructor
  · cases hraw : goCSVReadRaw s with
    | none => exact Or.inl (metaErrorFromCSV_of_read5_none s (goCSVRead5_of_raw_none s hraw))
    | some r =>
      by_cases h5 : r.length = 5
      · have h52 : goCSVRead5 s = some r := by
          rw [goCSVRead5_of_raw s r hraw, if_pos h5]
        have hm := metaErrorFromCSV_of_read5_some s r h52
        cases hat : goAtoi (r.getD 2 []) with
        | none =>
          rw [hat] at hm
          exact Or.inl hm
        | some n =>
          rw [hat] at hm
          exact Or.inr ⟨_, hm⟩
      · have h52 : goCSVRead5 s = none := by
          rw [goCSVRead5_of_raw s r hraw, if_neg h5]
        exact Or.inl (metaErrorFromCSV_of_read5_none s h52)
  · constructor
    · rintro ⟨m, hm⟩
      cases hraw : goCSVReadRaw s with
      | none =>
        rw [metaErrorFromCSV_of_read5_none s (goCSVRead5_of_raw_none s hraw)] at hm
        exact absurd hm (by simp)
      | some r =>
        by_cases h5 : r.length = 5
        · have h52 : goCSVRead5 s = some r := by
            rw [goCSVRead5_of_raw s r hraw, if_pos h5]
          have heq := metaErrorFromCSV_of_read5_some s r h52
          cases hat : goAtoi (r.getD 2 []) with
          | none =>
            rw [hat] at heq
            rw [heq] at hm
            exact absurd hm (by simp)
          | some n => exact ⟨r, rfl, h5, by rw [hat]; rfl⟩
        · have h52 : goCSVRead5 s = none := by
            rw [goCSVRead5_of_raw s r hraw, if_neg h5]
          rw [metaErrorFromCSV_of_read5_none s h52] at hm
          exact absurd hm (by simp)
    · rintro ⟨r, hr, h5, hat⟩
      have h52 : goCSVRead5 s = some r := by
        rw [goCSVRead5_of_raw s r hr, if_pos h5]
      have heq := metaErrorFromCSV_of_read5_some s r h52
      cases hat2 : goAtoi (r.getD 2 []) with
      | none =>
        rw [hat2] at hat
        exact absurd hat (by simp)
      | some n =>
        rw [hat2] at heq
        exact ⟨_, heq⟩

end App
